import Mathlib

/-!
# Shallow embedding of the ed25519-ts cryptographic core

This file embeds the arithmetic core of the ed25519-ts library (field and
scalar arithmetic over p = 2^255 - 19, twisted-Edwards point operations in
extended coordinates, the wNAF scalar-multiplication ladder, Ristretto255
encoding/decoding, key normalization and EdDSA signing) as executable Lean
definitions, and proves or refutes the frozen specification claims about it.

Modelling conventions, chosen to mirror the TypeScript source faithfully:

* The injectable big-integer type BIT is modelled as Lean Int.  JS bigint
  remainder and division truncate toward zero, so Ints.remainder is Int.tmod
  and Ints.divide is Int.tdiv.
* Bitwise operations appear in the source only with non-negative operands
  and power-of-two masks or shift counts; for a non-negative integer n,
  n AND (2^w - 1) is n tmod 2^w and n >> w is n tdiv 2^w, and these are the
  forms used here.  Byte values use Nat.land / Nat.lor directly.
* Uint8Array is modelled as List Nat (one entry per byte).
* Functions that throw in TypeScript return Option here; a thrown error is
  the value none.
* The tests instantiate the library with the JSBI backend, under which every
  field value is an object and hence truthy; the truthiness guard of
  ExtendedPoint.fromAffine therefore only tests the presence of z / t
  fields, modelled by two explicit Booleans.
* Loops whose bound is data-dependent (the extended-Euclid inversion, the
  bit-length of a number) take an explicit fuel argument large enough for
  all reachable inputs, so that every definition is executable by kernel
  reduction.
-/

set_option maxRecDepth 10000000

/-! ## Curve constants (src/curve.ts, makeCurve / makeConstants) -/

/-- The field prime p = 2^255 - 19, as a natural number. -/
def pN : Nat := 2^255 - 19

/-- CURVE.P: the field prime as an integer (the BIT type is Int here). -/
def pP : Int := 57896044618658097711785492504343953926634992332820282019728792003956564819949

/-- CURVE.n: the prime subgroup order l = 2^252 + 27742317777372353535851937790883648493. -/
def nL : Int := 7237005577332262213973186563042994240857116359379907606001950938285454250989

/-- CURVE.d = -121665/121666 mod p. -/
def dC : Int := 37095705934669439343138083508754565189542113879843219016388785533085940283555

/-- CURVE.Gx. -/
def gX : Int := 15112221349535400772501151409588531511454012693041857206046113283949847762202

/-- CURVE.Gy. -/
def gY : Int := 46316835694926478169428394003475163141307993866256225615783033603165251855960

/-- CONSTANTS.SQRT_M1, a square root of -1 modulo p. -/
def SQRT_M1 : Int := 19681161376707505956807079304988542015446066515923890162744021073123829784752

/-- CONSTANTS.INVSQRT_A_MINUS_D. -/
def INVSQRT_A_MINUS_D : Int := 54469307008909316920995813868745141605393597292927456921205312896311721017578

/-! ## MathFunctions (src/math.ts) -/

/-- MathFunctions.mod: JS remainder (truncating, Int.tmod) mapped into
[0, b): the source computes res = remainder(a, b) and returns res when
res is non-negative and b + res otherwise. -/
def modP (a : Int) (b : Int := pP) : Int :=
  if 0 ≤ a.tmod b then a.tmod b else b + a.tmod b

/-- MathFunctions.edIsNegative: least-significant bit of the canonical
representative equals 1.  (Source: bitwiseAnd(mod(num), 1) = 1; for the
non-negative value mod(num) the AND with 1 is tmod 2.) -/
def edIsNegative (num : Int) : Bool :=
  decide ((modP num).tmod 2 = 1)

/-- Strict evaluation marker.  The TypeScript source evaluates every
arithmetic expression of a loop iteration eagerly, while Lean kernel
reduction is lazy; on the deeply iterated loops below the lazily
accumulated towers of pending arithmetic exhaust the interpreter stack.
seqI forces its first argument to a numeral before continuing and is
semantically the identity: both branches return k n, and the comparison
n = n + 1 is always false. -/
def seqI {α : Type} (n : Int) (k : Int → α) : α :=
  if n = n + 1 then k n else k n

/-- One step stream of MathFunctions.invert's extended-Euclid loop, with fuel.
Returns (gcd, x) on termination of the while loop. -/
def invertLoop : Nat → Int → Int → Int → Int → Int → Int → Option (Int × Int)
  | 0, _, _, _, _, _, _ => none
  | fuel+1, a, b, x, y, u, v =>
    if a = 0 then some (b, x)
    else
      let q := b.tdiv a
      seqI (b.tmod a) fun r =>
      seqI (x - u * q) fun m =>
      seqI (y - v * q) fun n =>
      invertLoop fuel r a u v m n

/-- MathFunctions.invert: extended-Euclid modular inverse.  Throws (none) on
zero input, non-positive modulus, or gcd different from 1.  The fuel 600
dominates the worst-case iteration count for 256-bit moduli. -/
def invert (number : Int) (modulo : Int := pP) : Option Int :=
  if number = 0 ∨ modulo ≤ 0 then none
  else
    match invertLoop 600 (modP number modulo) modulo 0 1 1 0 with
    | none => none
    | some (gcd, x) => if gcd = 1 then some (modP x modulo) else none

/-- First pass of MathFunctions.invertBatch: the forward loop over nums with
the running product acc, recording the prefix products in the scratch list
(none for zero entries, which the source skips).  The scratch accumulator is
built in reverse and reversed on exit. -/
def ibPass1 (n : Int) : List Int → Int → List (Option Int) → (List (Option Int) × Int)
  | [], acc, scratch => (scratch.reverse, acc)
  | x :: rest, acc, scratch =>
    if x = 0 then ibPass1 n rest acc (none :: scratch)
    else
      seqI (modP (acc * x) n) fun acc' =>
      ibPass1 n rest acc' (some acc :: scratch)

/-- Second pass of MathFunctions.invertBatch, the backward loop: it walks
the zipped (value, scratch) list in reverse order with the running inverse
acc, collecting the results (zero entries stay 0). -/
def ibPass2 (n : Int) : List (Int × Option Int) → Int → List Int → List Int
  | [], _, res => res
  | (x, s) :: rest, acc, res =>
    match s with
    | none => ibPass2 n rest acc (0 :: res)
    | some sc =>
      seqI (modP (acc * sc) n) fun r =>
      seqI (modP (acc * x) n) fun acc' =>
      ibPass2 n rest acc' (r :: res)

/-- MathFunctions.invertBatch: Montgomery's trick; zero entries are skipped
and stay 0; a single invert call may throw (none). -/
def invertBatch (nums : List Int) (n : Int := pP) : Option (List Int) :=
  let (scratch, acc) := ibPass1 n nums 1 []
  match invert acc n with
  | none => none
  | some accInv => some (ibPass2 n ((nums.zip scratch).reverse) accInv [])

/-- MathFunctions.pow2 on a natural iteration count: x^(2^power) with each
squaring reduced by Ints.remainder (tmod) as in the source. -/
def pow2Aux (x : Int) : Nat → Int
  | 0 => x
  | k+1 => pow2Aux ((x * x).tmod pP) k

/-- MathFunctions.pow2: the source takes the power as a BIT; the loop count
is its (non-negative) value. -/
def pow2 (x : Int) (power : Int) : Int :=
  pow2Aux x power.toNat

/-- MathFunctions.pow_2_252_3: x^(2^252 - 3) mod p via the unrolled addition
chain of the source, using Ints.remainder (tmod) between steps. -/
def pow_2_252_3 (x : Int) : Int :=
  let x2 := (x * x).tmod pP
  let b2 := (x2 * x).tmod pP
  let b4 := ((pow2 b2 2) * b2).tmod pP
  let b5 := ((pow2 b4 1) * x).tmod pP
  let b10 := ((pow2 b5 5) * b5).tmod pP
  let b20 := ((pow2 b10 10) * b10).tmod pP
  let b40 := ((pow2 b20 20) * b20).tmod pP
  let b80 := ((pow2 b40 40) * b40).tmod pP
  let b160 := ((pow2 b80 80) * b80).tmod pP
  let b240 := ((pow2 b160 80) * b80).tmod pP
  let b250 := ((pow2 b240 10) * b10).tmod pP
  ((pow2 b250 2) * x).tmod pP

/-- MathFunctions.uvRatio: returns (isValid, x) with x a candidate solution
of x^2 * v = u.  The two successive conditional assignments of the source
collapse to one select because the first writes back the unchanged root1. -/
def uvRatio (u v : Int) : Bool × Int :=
  let v3 := modP (v * v * v)
  let v7 := modP (v3 * v3 * v)
  let x := modP (u * v3 * pow_2_252_3 (u * v7))
  let vx2 := modP (v * x * x)
  let root2 := modP (x * SQRT_M1)
  let useRoot1 := vx2 = u
  let useRoot2 := vx2 = modP (-u)
  let noRoot := vx2 = modP (-u * SQRT_M1)
  let xSel := if useRoot2 ∨ noRoot then root2 else x
  let xFin := if edIsNegative xSel then modP (-xSel) else xSel
  (decide (useRoot1 ∨ useRoot2), xFin)

/-- MathFunctions.invertSqrt: uvRatio(1, number). -/
def invertSqrt (number : Int) : Bool × Int :=
  uvRatio 1 number

/-! ## Serialization (src/serialization.ts) -/

/-- SerializationFunctions.bytesToNumberLE: little-endian byte decode
(value += byte_i << (8*i), written as the equivalent recursion). -/
def bytesToNumberLE : List Nat → Int
  | [] => 0
  | b :: rest => (b : Int) + 256 * bytesToNumberLE rest

/-- Little-endian byte digits of a natural number (fuel-based).  This is the
hex-pair view used by numberToHex followed by pairing from the end. -/
def byteDigits : Nat → Nat → List Nat
  | 0, _ => []
  | fuel+1, n => if n = 0 then [] else n % 256 :: byteDigits fuel (n / 256)

/-- SerializationFunctions.numberToBytesPadded: big-endian hex left-padded to
2*length chars, converted to bytes and reversed; equivalently the LE byte
digits of the value padded with zero bytes up to the requested length. -/
def numberToBytesPadded (num : Int) (length : Nat := 32) : List Nat :=
  let bs := byteDigits 64 num.toNat
  bs ++ List.replicate (length - bs.length) 0

/-- SerializationFunctions.isValidScalar for a BIT argument: strictly
positive.  (The number overload additionally requires a safe integer.) -/
def isValidScalar (num : Int) : Bool :=
  decide (0 < num)

/-! ## Extended points (src/points.ts, makeExtendedPointClass) -/

/-- Extended coordinates (X, Y, Z, T) with x = X/Z, y = Y/Z, T*Z = X*Y. -/
structure ExtPt where
  x : Int
  y : Int
  z : Int
  t : Int

/-- Componentwise decidable equality (the equality instance derived by the
compiler reduces too slowly under kernel evaluation). -/
instance : DecidableEq ExtPt := fun p q =>
  decidable_of_iff (p.x = q.x ∧ p.y = q.y ∧ p.z = q.z ∧ p.t = q.t)
    (by cases p; cases q; simp)

/-- Strict evaluation of all four coordinates of an extended point;
semantically the identity, see seqI. -/
def seqE {α : Type} (p : ExtPt) (k : ExtPt → α) : α :=
  seqI p.x fun _ => seqI p.y fun _ => seqI p.z fun _ => seqI p.t fun _ => k p

/-- ExtendedPoint.ZERO = (0, 1, 1, 0). -/
def zeroE : ExtPt := ⟨0, 1, 1, 0⟩

/-- ExtendedPoint.BASE. -/
def baseE : ExtPt := ⟨gX, gY, 1, modP (gX * gY)⟩

/-- ExtendedPoint.equals: cross-multiplied comparison T1*Z2 = T2*Z1 mod p. -/
def extEquals (p q : ExtPt) : Bool :=
  decide (modP (p.t * q.z) = modP (q.t * p.z))

/-- ExtendedPoint.negate. -/
def negE (p : ExtPt) : ExtPt :=
  ⟨modP (-p.x), p.y, p.z, modP (-p.t)⟩

/-- ExtendedPoint.double: dbl-2008-hwcd with a = -1. -/
def doubleE (p : ExtPt) : ExtPt :=
  let A := modP (p.x * p.x)
  let B := modP (p.y * p.y)
  let C := modP (2 * p.z * p.z)
  let D := modP ((-1) * A)
  let E := modP ((p.x + p.y) * (p.x + p.y) - A - B)
  let G := modP (D + B)
  let F := modP (G - C)
  let H := modP (D - B)
  ⟨modP (E * F), modP (G * H), modP (F * G), modP (E * H)⟩

/-- ExtendedPoint.add: add-2008-hwcd-4; falls back to double when F = 0. -/
def addE (p q : ExtPt) : ExtPt :=
  let A := modP ((p.y - p.x) * (q.y + q.x))
  let B := modP ((p.y + p.x) * (q.y - q.x))
  let F := modP (B - A)
  if F = 0 then doubleE p
  else
    let C := modP (p.z * 2 * q.t)
    let D := modP (p.t * 2 * q.z)
    let E := modP (D + C)
    let G := modP (B + A)
    let H := modP (D - C)
    ⟨modP (E * F), modP (G * H), modP (F * G), modP (E * H)⟩

/-- ExtendedPoint.subtract. -/
def subE (p q : ExtPt) : ExtPt :=
  addE p (negE q)

/-- ExtendedPoint.fromAffine restricted to plain (x, y) data, as used
internally (normalizeZ): compares against the internal POINT_ZERO = (0, 0)
and otherwise builds (x, y, 1, x*y mod p). -/
def fromAffinePlain (x y : Int) : ExtPt :=
  if x = 0 ∧ y = 0 then zeroE else ⟨x, y, 1, modP (x * y)⟩

/-- ExtendedPoint.fromAffine on a general dynamic input.  Under the JSBI
backend of the tests every present field is truthy, so the guard tests
exactly the presence of z / t fields (hasZ / hasT). -/
def fromAffine (x y : Int) (hasZ hasT : Bool) : Option ExtPt :=
  if hasZ ∨ hasT then none
  else some (fromAffinePlain x y)

/-- ExtendedPoint.toAffine with a supplied inverted Z. -/
def toAffineWith (p : ExtPt) (invZ : Int) : Int × Int :=
  (modP (p.x * invZ), modP (p.y * invZ))

/-- ExtendedPoint.toAffineBatch: one batch inversion of the Z coordinates. -/
def toAffineBatch (points : List ExtPt) : Option (List (Int × Int)) :=
  match invertBatch (points.map (·.z)) with
  | none => none
  | some invs => some ((points.zip invs).map (fun pi => toAffineWith pi.1 pi.2))

/-- ExtendedPoint.normalizeZ: batch-convert to affine and back. -/
def normalizeZ (points : List ExtPt) : Option (List ExtPt) :=
  match toAffineBatch points with
  | none => none
  | some affs => some (affs.map (fun a => fromAffinePlain a.1 a.2))

/-- ExtendedPoint.multiplyUnsafe loop: right-to-left double-and-add on the
bits of n (n AND 1, n >> 1 on a non-negative n are tmod/tdiv by 2). -/
def mulUnsafeLoop : Nat → Int → ExtPt → ExtPt → ExtPt
  | 0, _, p, _ => p
  | fuel+1, n, p, d =>
    if 0 < n then
      seqE (if n.tmod 2 ≠ 0 then addE p d else p) fun p' =>
      seqE (doubleE d) fun d' =>
      mulUnsafeLoop fuel (n.tdiv 2) p' d'
    else p

/-- ExtendedPoint.multiplyUnsafe: variable-time multiplication; rejects
non-positive scalars, returns the point itself when n = 1 mod l. -/
def multiplyUnsafe (pt : ExtPt) (scalar : Int) : Option ExtPt :=
  if ¬ isValidScalar scalar then none
  else
    let n := modP scalar nL
    if n = 1 then some pt
    else some (mulUnsafeLoop 300 n zeroE ⟨pt.x, pt.y, pt.z, pt.t⟩)

/-- Inner loop of ExtendedPoint.precomputeWindow: pushes 2^(W-1) - 1 further
multiples of p after the window base (accumulator is built reversed and
reversed once at the end, preserving the push order of the source). -/
def precompInner : Nat → ExtPt → ExtPt → List ExtPt → (ExtPt × List ExtPt)
  | 0, base, _, acc => (base, acc)
  | i+1, base, p, acc =>
    seqE (addE base p) fun base' =>
    precompInner i base' p (base' :: acc)

/-- Outer loop of ExtendedPoint.precomputeWindow over the window count. -/
def precompOuter : Nat → ExtPt → Nat → List ExtPt → List ExtPt
  | 0, _, _, acc => acc.reverse
  | w+1, p, inner, acc =>
    let (last, acc') := precompInner inner p p (p :: acc)
    seqE (doubleE last) fun p' =>
    precompOuter w p' inner acc'

/-- ExtendedPoint.precomputeWindow: (256 / W + 1) windows of 2^(W-1)
consecutive multiples each. -/
def precomputeWindow (p : ExtPt) (W : Nat) : List ExtPt :=
  precompOuter (256 / W + 1) p (2^(W-1) - 1) []

/-- Main loop of ExtendedPoint.wNAF over the windows.  For non-negative n,
n AND (2^W - 1) is modP n 2^W and n >> W is division by 2^W. -/
def wnafLoop (pre : List ExtPt) (W windowSize : Nat) :
    Nat → Nat → Int → ExtPt → ExtPt → (ExtPt × ExtPt)
  | 0, _, _, p, f => (p, f)
  | wleft+1, window, n, p, f =>
    let offset := window * windowSize
    let wbits0 : Int := modP n (2^W)
    let n1 := n.tdiv (2^W)
    let wbits := if wbits0 > (windowSize : Int) then wbits0 - 2^W else wbits0
    let n2 := if wbits0 > (windowSize : Int) then n1 + 1 else n1
    if wbits = 0 then
      let c := pre.getD offset zeroE
      seqE (addE f (if window % 2 = 1 then negE c else c)) fun f' =>
      wnafLoop pre W windowSize wleft (window+1) n2 p f'
    else
      let cached := pre.getD (offset + wbits.natAbs - 1) zeroE
      seqE (addE p (if wbits < 0 then negE cached else cached)) fun p' =>
      wnafLoop pre W windowSize wleft (window+1) n2 p' f

/-- ExtendedPoint.wNAF for a fresh precompute registry (the registry starts
empty, and a table is stored only after being built; every computation
settled in this file performs at most one table-using multiplication, so the
cache read always misses and the table is built from the point itself).
Fails when 256 mod W is non-zero.  Returns the pair (p, f). -/
def wNAF (pt : ExtPt) (n : Int) (W : Nat) : Option (ExtPt × ExtPt) :=
  if 256 % W ≠ 0 then none
  else
    let pre0 := precomputeWindow pt W
    match (if W = 1 then some pre0 else normalizeZ pre0) with
    | none => none
    | some pre => some (wnafLoop pre W (2^(W-1)) (256 / W + 1) 0 n zeroE zeroE)

/-- ExtendedPoint.multiply: constant-time wNAF multiplication with the given
window size from the affine hint (1 when unset). -/
def extMultiply (pt : ExtPt) (scalar : Int) (W : Nat) : Option ExtPt :=
  if ¬ isValidScalar scalar then none
  else
    let n := modP scalar nL
    match wNAF pt n W with
    | none => none
    | some (p, f) =>
      match normalizeZ [p, f] with
      | none => none
      | some normed => some (normed.getD 0 zeroE)

/-- ExtendedPoint.toAffine with the default argument invZ = invert(Z). -/
def toAffineDefault (p : ExtPt) : Option (Int × Int) :=
  match invert p.z with
  | none => none
  | some invZ => some (toAffineWith p invZ)

/-! ## Affine points (src/points.ts, makePointClass) -/

/-- Affine point with its optional wNAF window-size advice. -/
structure PointA where
  x : Int
  y : Int
  windowSize : Option Nat := none

/-- Componentwise decidable equality, as for ExtPt. -/
instance : DecidableEq PointA := fun p q =>
  decidable_of_iff (p.x = q.x ∧ p.y = q.y ∧ p.windowSize = q.windowSize)
    (by cases p; cases q; simp)

/-- Point.BASE after makeED's BASE._setWindowSize(8). -/
def baseP : PointA := ⟨gX, gY, some 8⟩

/-- Point.ZERO = (0, 1). -/
def zeroP : PointA := ⟨0, 1, none⟩

/-- Point.multiply: promote to extended coordinates, run the wNAF ladder with
this point as the affine hint, convert back. -/
def pointMultiply (pt : PointA) (scalar : Int) : Option PointA :=
  match fromAffine pt.x pt.y false false with
  | none => none
  | some ext =>
    match extMultiply ext scalar (pt.windowSize.getD 1) with
    | none => none
    | some prod =>
      match toAffineDefault prod with
      | none => none
      | some a => some ⟨a.1, a.2, none⟩

/-- Point.toRawBytes: 32 little-endian bytes of y with bit 255 set to the
parity of x (the source builds the bytes from the hex pairs of y taken from
the least-significant end, leaving high bytes zero). -/
def pointToRawBytes (pt : PointA) : List Nat :=
  let bs := byteDigits 64 pt.y.toNat
  let u8 := bs ++ List.replicate (32 - bs.length) 0
  let mask := if pt.x.tmod 2 ≠ 0 then 128 else 0
  u8.set 31 (Nat.lor (u8.getD 31 0) mask)

/-- Point.fromHex (RFC 8032 5.1.3 decompression), on a 32-byte input. -/
def pointFromHex (bytes : List Nat) : Option PointA :=
  if bytes.length ≠ 32 then none
  else
    let last := bytes.getD 31 0
    let normedLast := Nat.land last 127
    let isLastByteOdd := Nat.land last 128 ≠ 0
    let normed := bytes.take 31 ++ [normedLast]
    let y := bytesToNumberLE normed
    if pP ≤ y then none
    else
      let y2 := modP (y * y)
      let u := modP (y2 - 1)
      let v := modP (dC * y2 + 1)
      let uvr := uvRatio u v
      if ¬ uvr.1 then none
      else
        let x0 := uvr.2
        let isXOdd := x0.tmod 2 = 1
        let x := if isLastByteOdd ≠ isXOdd then modP (-x0) else x0
        some ⟨x, y, none⟩

/-! ## Ristretto (src/points.ts, Ristretto-related methods) -/

/-- ExtendedPoint.bytes255ToNumberLE: little-endian decode with bit 255
cleared (AND with 2^255 - 1 is tmod 2^255 on the non-negative decode),
reduced mod p. -/
def bytes255ToNumberLE (bytes : List Nat) : Int :=
  modP ((bytesToNumberLE bytes).tmod (2^255))

/-- ExtendedPoint.fromRistrettoBytes: the Ristretto255 32-byte decode. -/
def fromRistrettoBytes (bytes : List Nat) : Option ExtPt :=
  let s := bytes255ToNumberLE bytes
  if numberToBytesPadded s 32 ≠ bytes ∨ edIsNegative s then none
  else
    let s2 := modP (s * s)
    let u1 := modP (1 + (-1) * s2)
    let u2 := modP (1 - (-1) * s2)
    let u1sq := modP (u1 * u1)
    let u2sq := modP (u2 * u2)
    let v := modP ((-1) * dC * u1sq - u2sq)
    let uvr := invertSqrt (modP (v * u2sq))
    let I := uvr.2
    let Dx := modP (I * u2)
    let Dy := modP (I * Dx * v)
    let x0 := modP ((s + s) * Dx)
    let x := if edIsNegative x0 then modP (-x0) else x0
    let y := modP (u1 * Dy)
    let t := modP (x * y)
    if ¬ uvr.1 ∨ edIsNegative t ∨ y = 0 then none
    else some ⟨x, y, 1, t⟩

/-- ExtendedPoint.toRistrettoBytes: the Ristretto255 canonical encoding. -/
def toRistrettoBytes (p : ExtPt) : List Nat :=
  let u1 := modP ((p.z + p.y) * (p.z - p.y))
  let u2 := modP (p.x * p.y)
  let invsqrt := (invertSqrt (modP (u1 * u2 * u2))).2
  let D1 := modP (invsqrt * u1)
  let D2 := modP (invsqrt * u2)
  let zInv := modP (D1 * D2 * p.t)
  let rotate := edIsNegative (p.t * zInv)
  let x := if rotate then modP (p.y * SQRT_M1) else p.x
  let y0 := if rotate then modP (p.x * SQRT_M1) else p.y
  let D := if rotate then modP (D1 * INVSQRT_A_MINUS_D) else D2
  let y := if edIsNegative (x * zInv) then modP (-y0) else y0
  let s0 := modP ((p.z - y) * D)
  let s := if edIsNegative s0 then modP (-s0) else s0
  numberToBytesPadded s 32

/-! ## Key utilities (src/key-utils.ts) -/

/-- The dynamic private-key input forms: a big integer, a JS number, a byte
array, or a hex string (modelled as its list of hex-digit values). -/
inductive PrivKeyM where
  | int (n : Int)
  | num (n : Int)
  | bytes (b : List Nat)
  | hexStr (digits : List Nat)
deriving DecidableEq

/-- Little-endian hex digits of a natural number, fuel-based; the reverse of
JS toString(16) (with toString(16) of 0 being the single digit 0). -/
def hexDigitsLE : Nat → Nat → List Nat
  | 0, _ => []
  | fuel+1, n => if n = 0 then [] else n % 16 :: hexDigitsLE fuel (n / 16)

/-- JS num.toString(16) for a non-negative value, as a big-endian digit
list; 0 prints as the single digit 0. -/
def toHexString (n : Nat) : List Nat :=
  if n = 0 then [0] else (hexDigitsLE 300 n).reverse

/-- hexToBytes on a digit list of even length: consecutive digit pairs. -/
def hexPairsToBytes : List Nat → List Nat
  | d1 :: d2 :: rest => (16 * d1 + d2) :: hexPairsToBytes rest
  | _ => []

/-- KeyUtils.normalizePrivateKey.  Integer inputs are range-checked against
[0, 2^256], printed as hex, left-padded to 64 digits and then pushed through
the string branch (which rejects any length other than 64); byte inputs must
have length 32; number inputs must additionally be safe integers. -/
def normalizePrivateKey (key : PrivKeyM) : Option (List Nat) :=
  let viaInt : Int → Option (List Nat) := fun n =>
    if n < 0 ∨ n > 2^256 then none
    else
      let hs := toHexString n.toNat
      let padded := List.replicate (64 - hs.length) 0 ++ hs
      if padded.length ≠ 64 then none
      else some (hexPairsToBytes padded)
  match key with
  | .int n => viaInt n
  | .num n => if n.natAbs ≤ 2^53 - 1 then viaInt n else none
  | .hexStr ds =>
    if ds.length ≠ 64 then none else some (hexPairsToBytes ds)
  | .bytes b =>
    if b.length ≠ 32 then none else some b

/-- KeyUtils.encodePrivate: clamp the first 32 bytes per RFC 8032 and reduce
the little-endian value mod l. -/
def encodePrivate (privateBytes : List Nat) : Int :=
  let head := privateBytes.take 32
  let head0 := head.set 0 (Nat.land (head.getD 0 0) 248)
  let head1 := head0.set 31 (Nat.lor (Nat.land (head0.getD 31 0) 127) 64)
  modP (bytesToNumberLE head1) nL

/-- KeyUtils.keyPrefix: bytes 32..63 of the expanded key.  (Named with a
Bytes suffix here.) -/
def keyPrefixBytes (privateBytes : List Nat) : List Nat :=
  privateBytes.drop 32

/-! ## Signing (src/signing.ts, src/curve.ts, src/hash.ts) -/

/-- isWithinCurveOrder (src/curve.ts): 0 < num < CURVE.n. -/
def isWithinCurveOrder (num : Int) : Bool :=
  decide (0 < num ∧ num < nL)

/-- Signature.fromHex on a 64-byte signature: decode R from the first 32
bytes, read s little-endian from the last 32, reject s outside (0, l). -/
def signatureFromHex (bytes : List Nat) : Option (PointA × Int) :=
  match pointFromHex (bytes.take 32) with
  | none => none
  | some r =>
    let s := bytesToNumberLE (bytes.drop 32)
    if ¬ isWithinCurveOrder s then none
    else some (r, s)

/-- sha512ToNumberLE (src/hash.ts): hash the concatenation, decode
little-endian, reduce mod l.  The SHA-512 provider is a parameter. -/
def sha512ToNumberLE (oracle : List Nat → List Nat) (msg : List Nat) : Int :=
  modP (bytesToNumberLE (oracle msg)) nL

/-- Signature.toRawBytes: R compressed (32 bytes) followed by s
little-endian padded to 32 bytes. -/
def signatureToRawBytes (r : PointA) (s : Int) : List Nat :=
  let numberBytes := byteDigits 64 s.toNat
  let sBytes := numberBytes ++ List.replicate (32 - numberBytes.length) 0
  pointToRawBytes r ++ sBytes

/-- sign (src/signing.ts): EdDSA signing with the injected SHA-512 provider
modelled as a pure oracle.  Every thrown error is none; in particular the
two Point.BASE.multiply calls reject a zero scalar. -/
def sign (oracle : List Nat → List Nat) (privateKey : PrivKeyM) (msg : List Nat) :
    Option (List Nat) :=
  (normalizePrivateKey privateKey).bind fun normKey =>
    (pointMultiply baseP (encodePrivate (oracle normKey))).bind fun P =>
      (pointMultiply baseP
          (sha512ToNumberLE oracle (keyPrefixBytes (oracle normKey) ++ msg))).bind fun R =>
        some (signatureToRawBytes R
          (modP (sha512ToNumberLE oracle (keyPrefixBytes (oracle normKey) ++ msg) +
                sha512ToNumberLE oracle (pointToRawBytes R ++ pointToRawBytes P ++ msg) *
                  encodePrivate (oracle normKey)) nL))

/-- The all-zeros SHA-512 oracle used to exhibit a failing signing input. -/
def zeroOracle : List Nat → List Nat :=
  fun _ => List.replicate 64 0

/-- The twisted-Edwards curve equation -x^2 + y^2 = 1 + d x^2 y^2 (mod p). -/
def onCurve (x y : Int) : Prop :=
  modP (-(x * x) + y * y) = modP (1 + dC * (x * x) * (y * y))

instance (x y : Int) : Decidable (onCurve x y) := by
  unfold onCurve; infer_instance

/-- The extended-coordinate representation invariant of the specification:
Z is non-zero, T*Z = X*Y modulo p, and all coordinates lie in [0, p). -/
def repInvariant (p : ExtPt) : Prop :=
  p.z ≠ 0 ∧ modP (p.t * p.z) = modP (p.x * p.y) ∧
  0 ≤ p.x ∧ p.x < pP ∧ 0 ≤ p.y ∧ p.y < pP ∧
  0 ≤ p.z ∧ p.z < pP ∧ 0 ≤ p.t ∧ p.t < pP

instance (p : ExtPt) : Decidable (repInvariant p) := by
  unfold repInvariant; infer_instance

/-- Boolean componentwise comparison of extended points.  Kernel reduction
of the generic DecidableEq instances on structures and Option is too slow on
large computed values, so concrete equalities are decided through these
Boolean comparators and converted by the lemmas below. -/
def extPtBeq (p q : ExtPt) : Bool :=
  decide (p.x = q.x) && decide (p.y = q.y) && decide (p.z = q.z) && decide (p.t = q.t)

/-- Boolean comparison of optional extended points. -/
def optExtBeq : Option ExtPt → Option ExtPt → Bool
  | none, none => true
  | some p, some q => extPtBeq p q
  | _, _ => false

/-- Boolean componentwise comparison of affine points. -/
def pointABeq (p q : PointA) : Bool :=
  decide (p.x = q.x) && decide (p.y = q.y) && decide (p.windowSize = q.windowSize)

/-- Boolean comparison of optional affine points. -/
def optPointABeq : Option PointA → Option PointA → Bool
  | none, none => true
  | some p, some q => pointABeq p q
  | _, _ => false

/-- Boolean comparison of byte lists. -/
def natListBeq : List Nat → List Nat → Bool
  | [], [] => true
  | a :: as, b :: bs => a == b && natListBeq as bs
  | _, _ => false

/-- The tail of uvRatio after the candidate root x has been computed;
uvRatio u v is definitionally uvRatioFrom u v applied to the computed
candidate, which the proofs below exploit to reason about an arbitrary
in-range candidate. -/
def uvRatioFrom (u v x : Int) : Bool × Int :=
  let vx2 := modP (v * x * x)
  let root2 := modP (x * SQRT_M1)
  let useRoot1 := vx2 = u
  let useRoot2 := vx2 = modP (-u)
  let noRoot := vx2 = modP (-u * SQRT_M1)
  let xSel := if useRoot2 ∨ noRoot then root2 else x
  let xFin := if edIsNegative xSel then modP (-xSel) else xSel
  (decide (useRoot1 ∨ useRoot2), xFin)

/-- A concrete inverse of 1 + SQRT_M1 modulo p, certifying that 1 + SQRT_M1
is a unit. -/
def invOnePlusSqrtM1 : Int := 19107441620975295877489206599677705955594462908448195928492385465416367517599

/-- A concrete inverse of 2 modulo p. -/
def halfP : Int := 28948022309329048855892746252171976963317496166410141009864396001978282409975

/-- Fuel-based binary modular exponentiation, used to evaluate the Fermat
and Lucas conditions of the primality certificates by kernel reduction. -/
def powModN : Nat → Nat → Nat → Nat → Nat
  | 0, _, _, m => 1 % m
  | fuel+1, b, e, m =>
    if e = 0 then 1 % m
    else
      let h := powModN fuel (b * b % m) (e / 2) m
      if e % 2 = 1 then h * b % m else h

/-! ## Basic arithmetic lemmas about the embedding -/

theorem tmod_neg_left (a b : Int) : (-a).tmod b = -(a.tmod b) := by
  rw [Int.tmod_def, Int.tmod_def, Int.neg_tdiv]
  ring

theorem modP_nonneg (a : Int) {b : Int} (hb : 0 < b) : 0 ≤ modP a b := by
  unfold modP
  split
  · assumption
  · rename_i h
    rcases le_or_lt 0 a with ha | ha
    · exact absurd (Int.tmod_nonneg b ha) h
    · have h1 : (-a).tmod b < b := Int.tmod_lt_of_pos (-a) hb
      have h2 : (-a).tmod b = -(a.tmod b) := tmod_neg_left a b
      omega

theorem modP_lt (a : Int) {b : Int} (hb : 0 < b) : modP a b < b := by
  unfold modP
  split
  · exact Int.tmod_lt_of_pos a hb
  · rename_i h
    omega

theorem dvd_sub_modP (a b : Int) : b ∣ (a - modP a b) := by
  unfold modP
  have hd : a - a.tmod b = b * a.tdiv b := by
    rw [Int.tmod_def]; ring
  split
  · exact ⟨a.tdiv b, hd⟩
  · exact ⟨a.tdiv b - 1, by rw [Int.mul_sub, ← hd]; ring⟩

theorem modP_eq_emod (a : Int) {b : Int} (hb : 0 < b) : modP a b = a % b := by
  have h1 : b ∣ (modP a b - a % b) := by
    have h2 : b ∣ (a - a % b) := Int.dvd_sub_of_emod_eq rfl
    have h3 := dvd_sub_modP a b
    have : modP a b - a % b = (a - a % b) - (a - modP a b) := by ring
    rw [this]
    exact dvd_sub h2 h3
  have h4 : |modP a b - a % b| < b := by
    have := modP_nonneg a hb
    have := modP_lt a hb
    have := Int.emod_nonneg a hb.ne'
    have := Int.emod_lt_of_pos a hb
    rw [abs_lt]
    omega
  have := Int.eq_zero_of_abs_lt_dvd h1 h4
  omega

theorem pP_pos : (0 : Int) < pP := by decide

theorem pP_eq_natCast : pP = ((pN : Nat) : Int) := by decide

/-- Bridge from the canonical representative to the residue ring. -/
theorem castMod (a : Int) : ((modP a pP : Int) : ZMod pN) = (a : ZMod pN) := by
  rw [modP_eq_emod a pP_pos, ZMod.intCast_eq_intCast_iff', pP_eq_natCast, Int.emod_emod_of_dvd]
  exact dvd_refl _

/-- Equality of canonical representatives is equality in ZMod p. -/
theorem modP_eq_iff (a b : Int) :
    modP a pP = modP b pP ↔ ((a : ZMod pN) = (b : ZMod pN)) := by
  constructor
  · intro h
    rw [← castMod a, ← castMod b, h]
  · intro h
    rw [modP_eq_emod a pP_pos, modP_eq_emod b pP_pos, pP_eq_natCast]
    exact (ZMod.intCast_eq_intCast_iff' a b pN).mp h


/-! ## Conversion lemmas for the Boolean comparators -/

theorem extPt_eq_of_beq {p q : ExtPt} (h : extPtBeq p q = true) : p = q := by
  cases p; cases q
  simp only [extPtBeq, Bool.and_eq_true, decide_eq_true_eq] at h
  simp_all

theorem optExt_eq_of_beq {a b : Option ExtPt} (h : optExtBeq a b = true) : a = b := by
  cases a <;> cases b <;> simp_all [optExtBeq]
  exact extPt_eq_of_beq h

theorem pointA_eq_of_beq {p q : PointA} (h : pointABeq p q = true) : p = q := by
  cases p; cases q
  simp only [pointABeq, Bool.and_eq_true, decide_eq_true_eq] at h
  simp_all

theorem optPointA_eq_of_beq {a b : Option PointA} (h : optPointABeq a b = true) : a = b := by
  cases a <;> cases b <;> simp_all [optPointABeq]
  exact pointA_eq_of_beq h

theorem natList_eq_of_beq : ∀ {a b : List Nat}, natListBeq a b = true → a = b
  | [], [], _ => rfl
  | a :: as, b :: bs, h => by
    simp only [natListBeq, Bool.and_eq_true, beq_iff_eq] at h
    rw [h.1, natList_eq_of_beq h.2]
  | [], _ :: _, h => by simp [natListBeq] at h
  | _ :: _, [], h => by simp [natListBeq] at h

theorem eq_none_of_isSome_false {α : Type} {o : Option α} (h : o.isSome = false) : o = none := by
  cases o <;> simp_all

/-! ## C10: the all-zero string encodes the Ristretto identity -/

/-- C10: fromRistrettoBytes on 32 zero bytes succeeds and returns the point
(0, 1, 1, 0), which the library's ExtendedPoint.equals identifies with
ExtendedPoint.ZERO; and ExtendedPoint.ZERO.toRistrettoBytes() is exactly
the 32 zero bytes. -/
theorem c10_zero_bytes_are_identity :
    fromRistrettoBytes (List.replicate 32 0) = some ⟨0, 1, 1, 0⟩ ∧
    extEquals ⟨0, 1, 1, 0⟩ zeroE = true ∧
    toRistrettoBytes zeroE = List.replicate 32 0 :=
  ⟨optExt_eq_of_beq (by decide), by decide, natList_eq_of_beq (by decide)⟩

/-! ## C4: scalar-multiplication algebra -/

/-- C4 (code bug): the order-2 curve point P = (0, p-1) is a valid affine
point, but Point.multiply(1) on it returns the identity (0, 1) instead of P:
the coincident-point test F = 0 of ExtendedPoint.add also fires when adding
ZERO to a point with x = 0, so the ladder wrongly doubles instead of adding.
Moreover multiply(0) throws (isValidScalar rejects 0) instead of returning
ZERO.  Both contradict the claimed identities 1*P = P and 0*P = ZERO. -/
theorem c4_multiply_identities_fail :
    onCurve 0 (pP - 1) ∧
    pointMultiply ⟨0, pP - 1, none⟩ 1 = some ⟨0, 1, none⟩ ∧
    (⟨0, 1, none⟩ : PointA) ≠ ⟨0, pP - 1, none⟩ ∧
    pointMultiply ⟨0, pP - 1, none⟩ 0 = none :=
  ⟨by decide, optPointA_eq_of_beq (by decide), by decide,
   eq_none_of_isSome_false (by decide)⟩

/-! ## C7: wNAF ladder vs multiplyUnsafe -/

/-- C7 (code bug): at the valid order-2 curve point P = (0, p-1) the wNAF
ladder of Point.multiply(1) yields the identity (0, 1), whereas
multiplyUnsafe(1) returns P itself (affine form (0, p-1)); the two
multiplications disagree, and multiplyUnsafe is the correct one. -/
theorem c7_wnaf_disagrees_with_multiplyUnsafe :
    onCurve 0 (pP - 1) ∧
    multiplyUnsafe (fromAffinePlain 0 (pP - 1)) 1 = some (fromAffinePlain 0 (pP - 1)) ∧
    toAffineDefault (fromAffinePlain 0 (pP - 1)) = some (0, pP - 1) ∧
    pointMultiply ⟨0, pP - 1, none⟩ 1 = some ⟨0, 1, none⟩ ∧
    ((0 : Int), pP - 1) ≠ ((0 : Int), (1 : Int)) :=
  ⟨by decide, optExt_eq_of_beq (by decide),
   by
     have h : (toAffineDefault (fromAffinePlain 0 (pP - 1))).isSome = true := by decide
     have h1 : ((toAffineDefault (fromAffinePlain 0 (pP - 1))).getD (0, 0)).1 = 0 := by decide
     have h2 : ((toAffineDefault (fromAffinePlain 0 (pP - 1))).getD (0, 0)).2 = pP - 1 := by
       decide
     cases ht : toAffineDefault (fromAffinePlain 0 (pP - 1)) with
     | none => rw [ht] at h; cases h
     | some v =>
       rw [ht] at h1 h2
       simp only [Option.getD_some] at h1 h2
       rw [← h1, ← h2]
   ,
   optPointA_eq_of_beq (by decide), by decide⟩

/-! ## C2: extended-point equality versus coordinate cross-products -/

/-- C2 counterexample: the two points (2, 3, 1, 6) and (3, 2, 1, 6) both
satisfy the representation invariant, ExtendedPoint.equals accepts them as
equal (6*1 = 6*1 mod p), yet X1*Z2 is not congruent to X2*Z1 mod p,
refuting the claimed equivalence. -/
theorem c2_equals_anomaly :
    repInvariant ⟨2, 3, 1, 6⟩ ∧ repInvariant ⟨3, 2, 1, 6⟩ ∧
    extEquals ⟨2, 3, 1, 6⟩ ⟨3, 2, 1, 6⟩ = true ∧
    ¬ (modP ((2 : Int) * 1) = modP ((3 : Int) * 1) ∧
       modP ((3 : Int) * 1) = modP ((2 : Int) * 1)) :=
  ⟨by decide, by decide, by decide, by decide⟩

/-! ## C5: signature decoding bounds on s -/

/-- C5 counterexample: a 64-byte signature whose first half is the valid
compressed BASE point and whose s-half is zero decodes the point part, yet
Signature.fromHex rejects it, although the claim says s = 0 is accepted. -/
theorem c5_s_zero_rejected :
    signatureFromHex (pointToRawBytes ⟨gX, gY, none⟩ ++ List.replicate 32 0) = none ∧
    (pointFromHex ((pointToRawBytes ⟨gX, gY, none⟩ ++ List.replicate 32 0).take 32)).isSome
      = true ∧
    bytesToNumberLE ((pointToRawBytes ⟨gX, gY, none⟩ ++ List.replicate 32 0).drop 32) = 0 :=
  ⟨eq_none_of_isSome_false (by decide), by decide, by decide⟩

/-- C5 amended: decoding a 64-byte signature with Signature.fromHex succeeds
exactly when the first 32 bytes decode to a curve point and the little-endian
integer s of the last 32 bytes lies strictly between 0 and the group order l
(so s = 0 is rejected, not accepted). -/
theorem c5_fromHex_success_iff (bytes : List Nat) (_h : bytes.length = 64) :
    (signatureFromHex bytes).isSome = true ↔
      ((pointFromHex (bytes.take 32)).isSome = true ∧
        0 < bytesToNumberLE (bytes.drop 32) ∧ bytesToNumberLE (bytes.drop 32) < nL) := by
  unfold signatureFromHex
  cases hr : pointFromHex (bytes.take 32) with
  | none => simp
  | some r =>
    simp only [Option.isSome_some, true_and]
    unfold isWithinCurveOrder
    by_cases hs : 0 < bytesToNumberLE (bytes.drop 32) ∧ bytesToNumberLE (bytes.drop 32) < nL
    · simp [hs]
    · simp [hs]

/-- Witness for the C5 amended theorem at the concrete signature made of the
compressed BASE point followed by s = 1 in little-endian form. -/
theorem c5_fromHex_success_iff_witness :
    (signatureFromHex (pointToRawBytes ⟨gX, gY, none⟩ ++ 1 :: List.replicate 31 0)).isSome
        = true ↔
      ((pointFromHex ((pointToRawBytes ⟨gX, gY, none⟩ ++ 1 :: List.replicate 31 0).take 32)).isSome
          = true ∧
        0 < bytesToNumberLE ((pointToRawBytes ⟨gX, gY, none⟩ ++ 1 :: List.replicate 31 0).drop 32) ∧
        bytesToNumberLE ((pointToRawBytes ⟨gX, gY, none⟩ ++ 1 :: List.replicate 31 0).drop 32) < nL) :=
  c5_fromHex_success_iff (pointToRawBytes ⟨gX, gY, none⟩ ++ 1 :: List.replicate 31 0) (by decide)

/-! ## C9: ExtendedPoint.fromAffine -/

/-- C9 counterexample: the input (0, 0) (the internal POINT_ZERO sentinel,
not the affine identity) is mapped to ExtendedPoint.ZERO = (0, 1, 1, 0)
rather than to the quadruple (0, 0, 1, 0*0 mod p) prescribed by the claim
for every input other than (0, 1). -/
theorem c9_from_affine_zero_zero :
    fromAffine 0 0 false false = some zeroE ∧
    zeroE ≠ (⟨0, 0, 1, modP (0 * 0)⟩ : ExtPt) :=
  ⟨by decide, by decide⟩

/-- C9 amended: fromAffine rejects any input carrying z or t fields; it maps
the internal sentinel (0, 0) to ZERO; the affine identity (0, 1) maps to the
quadruple (0, 1, 1, 0), i.e. the components of ZERO, through the general
branch; and every input other than (0, 0) yields (x, y, 1, x*y mod p). -/
theorem c9_from_affine_cases (x y : Int) (hz ht : Bool) :
    ((hz = true ∨ ht = true) → fromAffine x y hz ht = none) ∧
    fromAffine 0 0 false false = some zeroE ∧
    fromAffine 0 1 false false = some ⟨0, 1, 1, 0⟩ ∧
    (¬ (x = 0 ∧ y = 0) → fromAffine x y false false = some ⟨x, y, 1, modP (x * y)⟩) := by
  refine ⟨?_, by decide, by decide, ?_⟩
  · intro h
    unfold fromAffine
    rcases h with h | h <;> simp [h]
  · intro h
    unfold fromAffine fromAffinePlain
    simp [h]

/-- Witness for the C9 amended theorem at x = 2, y = 3: a z-carrying input
is rejected and the plain input is mapped to (2, 3, 1, 6). -/
theorem c9_from_affine_cases_witness :
    (((true : Bool) = true ∨ (false : Bool) = true) ∧ fromAffine 2 3 true false = none) ∧
    (¬ ((2 : Int) = 0 ∧ (3 : Int) = 0) ∧
      fromAffine 2 3 false false = some ⟨2, 3, 1, modP (2 * 3)⟩) :=
  ⟨⟨Or.inl rfl, (c9_from_affine_cases 2 3 true false).1 (Or.inl rfl)⟩,
   ⟨by decide, (c9_from_affine_cases 2 3 false false).2.2.2 (by decide)⟩⟩

/-! ## C8: normalizePrivateKey -/

/-- C8 counterexample: the integer 2^256 lies in the claimed accepted range
[0, 2^256] and passes the explicit range guard of the source, but its hex
form has 65 digits, so the string branch rejects it and normalizePrivateKey
throws. -/
theorem c8_two_pow_256_rejected :
    normalizePrivateKey (.int (2^256)) = none ∧
    (0 : Int) ≤ 2^256 ∧ ((2^256 : Int)) ≤ 2^256 :=
  ⟨eq_none_of_isSome_false (by decide), by decide, by decide⟩

/-! ## C1: sign/verify round trip under an arbitrary hash oracle -/

/-- C1 (code bug): with the SHA-512 provider modelled as the pure oracle
returning 64 zero bytes (a legal value of the claim's arbitrary pure hash
function), the valid 32-zero-byte private key and the empty message make
sign throw: the derived nonce r = H(prefix, m) mod l is 0, and
Point.BASE.multiply rejects the zero scalar, so no signature is produced
and verify(sign(m, pk), m, getPublicKey(pk)) cannot return true. -/
theorem c1_sign_throws_on_zero_nonce :
    sign zeroOracle (.bytes (List.replicate 32 0)) [] = none ∧
    sha512ToNumberLE zeroOracle
      (keyPrefixBytes (zeroOracle (List.replicate 32 0)) ++ []) = 0 ∧
    isValidScalar 0 = false := by
  refine ⟨?_, by decide, by decide⟩
  have hn : normalizePrivateKey (.bytes (List.replicate 32 0)) =
      some (List.replicate 32 0) := by decide
  unfold sign
  rw [hn, Option.some_bind]
  cases hP : pointMultiply baseP (encodePrivate (zeroOracle (List.replicate 32 0))) with
  | none => rw [Option.none_bind]
  | some P =>
    rw [Option.some_bind]
    have hr : sha512ToNumberLE zeroOracle
        (keyPrefixBytes (zeroOracle (List.replicate 32 0)) ++ []) = 0 := by decide
    rw [hr]
    have hm : pointMultiply baseP 0 = none :=
      eq_none_of_isSome_false (by decide)
    rw [hm, Option.none_bind]


/-! ## C3: the uvRatio specification -/

theorem uvRatio_eq_from (u v : Int) :
    uvRatio u v =
      uvRatioFrom u v
        (modP (u * modP (v * v * v) *
          pow_2_252_3 (u * modP (modP (v * v * v) * modP (v * v * v) * v)))) := rfl

theorem modP_small {a b : Int} (h0 : 0 ≤ a) (h : a < b) : modP a b = a := by
  unfold modP
  rw [Int.tmod_eq_of_lt h0 h]
  simp [h0]

theorem modP_neg_small {a b : Int} (h0 : 0 < a) (h : a < b) : modP (-a) b = b - a := by
  unfold modP
  rw [tmod_neg_left, Int.tmod_eq_of_lt h0.le h]
  have hlt : ¬ (0 : Int) ≤ -a := by omega
  rw [if_neg hlt]
  omega

/-- Equality of residues mod p as an equality in ZMod p. -/
theorem emod_eq_iff_cast (a b : Int) :
    a % pP = b % pP ↔ ((a : ZMod pN) = (b : ZMod pN)) := by
  rw [pP_eq_natCast]
  exact (ZMod.intCast_eq_intCast_iff' a b pN).symm

theorem cast_of_emod_eq {a b : Int} (h : a % pP = b % pP) :
    ((a : ZMod pN) = (b : ZMod pN)) :=
  (emod_eq_iff_cast a b).mp h

/-- SQRT_M1 squares to -1 modulo p. -/
theorem sqrt_m1_sq : ((SQRT_M1 : Int) : ZMod pN) * ((SQRT_M1 : Int) : ZMod pN) = -1 := by
  have h := cast_of_emod_eq (a := SQRT_M1 * SQRT_M1) (b := -1) (by decide)
  push_cast at h
  exact h

theorem one_plus_sqrt_m1_unit :
    (1 + ((SQRT_M1 : Int) : ZMod pN)) * ((invOnePlusSqrtM1 : Int) : ZMod pN) = 1 := by
  have h := cast_of_emod_eq (a := (1 + SQRT_M1) * invOnePlusSqrtM1) (b := 1) (by decide)
  push_cast at h
  exact h

theorem two_unit : (2 : ZMod pN) * ((halfP : Int) : ZMod pN) = 1 := by
  have h := cast_of_emod_eq (a := 2 * halfP) (b := 1) (by decide)
  push_cast at h
  exact h

theorem uvRatioFrom_spec (u v x : Int) (_hu0 : 0 ≤ u) (_hu : u < pP)
    (hx0 : 0 ≤ x) (hx : x < pP) :
    0 ≤ (uvRatioFrom u v x).2 ∧ (uvRatioFrom u v x).2 < pP ∧
    (uvRatioFrom u v x).2.tmod 2 = 0 ∧
    ((uvRatioFrom u v x).1 = true →
      ((uvRatioFrom u v x).2 * (uvRatioFrom u v x).2 * v) % pP = u % pP) := by
  unfold uvRatioFrom
  dsimp only
  set xSel := if modP (v * x * x) = modP (-u) ∨ modP (v * x * x) = modP (-u * SQRT_M1) then
      modP (x * SQRT_M1) else x with hxSel
  have hsel0 : 0 ≤ xSel := by
    rw [hxSel]; split
    · exact modP_nonneg _ pP_pos
    · exact hx0
  have hsel1 : xSel < pP := by
    rw [hxSel]; split
    · exact modP_lt _ pP_pos
    · exact hx
  have hpodd : pP % 2 = 1 := by decide
  constructor
  · split
    · exact modP_nonneg _ pP_pos
    · exact hsel0
  constructor
  · split
    · exact modP_lt _ pP_pos
    · exact hsel1
  constructor
  · -- parity of the final value
    by_cases hneg : edIsNegative xSel = true
    · rw [if_pos hneg]
      unfold edIsNegative at hneg
      rw [modP_small hsel0 hsel1] at hneg
      have hodd : xSel.tmod 2 = 1 := of_decide_eq_true hneg
      rw [Int.tmod_eq_emod hsel0 (by norm_num)] at hodd
      have hpos : 0 < xSel := by
        rcases lt_or_eq_of_le hsel0 with h | h
        · exact h
        · exfalso; rw [← h] at hodd; simp at hodd
      rw [modP_neg_small hpos hsel1]
      rw [Int.tmod_eq_emod (by omega) (by norm_num)]
      omega
    · rw [if_neg hneg]
      unfold edIsNegative at hneg
      rw [modP_small hsel0 hsel1] at hneg
      have : ¬ xSel.tmod 2 = 1 := by
        intro hcon
        exact hneg (decide_eq_true hcon)
      rw [Int.tmod_eq_emod hsel0 (by norm_num)] at this ⊢
      omega
  · -- validity implies the square-root property
    intro hval
    have hval' : modP (v * x * x) = u ∨ modP (v * x * x) = modP (-u) :=
      of_decide_eq_true hval
    -- the final negation does not change the square
    have hsq : ∀ w : Int, ((if edIsNegative w then modP (-w) else w : Int) : ZMod pN) ^ 2
        = ((w : Int) : ZMod pN) ^ 2 := by
      intro w
      split
      · rw [show ((modP (-w) : Int) : ZMod pN) = ((-w : Int) : ZMod pN) from castMod (-w)]
        push_cast
        ring
      · rfl
    have hgoal : ∀ a b : Int, ((a : ZMod pN) = (b : ZMod pN)) → a % pP = b % pP :=
      fun a b h => (emod_eq_iff_cast a b).mpr h
    set xFin := (if edIsNegative xSel then modP (-xSel) else xSel) with hxFin
    apply hgoal
    push_cast
    have hstep : ((xFin : Int) : ZMod pN) * (xFin : ZMod pN) * (v : ZMod pN)
        = ((xFin : Int) : ZMod pN) ^ 2 * (v : ZMod pN) := by ring
    rw [hstep, hxFin, hsq xSel]
    -- now the goal is xSel^2 * v = u in ZMod pN
    rcases hval' with h1 | h2
    · -- vx2 = u
      have hc1 : ((v * x * x : Int) : ZMod pN) = (u : ZMod pN) := by
        rw [← castMod (v * x * x), h1]
      by_cases hs : modP (v * x * x) = modP (-u) ∨ modP (v * x * x) = modP (-u * SQRT_M1)
      · -- selected root2 although vx2 = u: only possible when u = 0
        rw [hxSel, if_pos hs]
        have hu0' : (u : ZMod pN) = 0 := by
          rcases hs with h2 | h3
          · -- vx2 = u and vx2 = -u force 2u = 0, and 2 is a unit
            have hc2 : ((v * x * x : Int) : ZMod pN) = ((-u : Int) : ZMod pN) := by
              rw [← castMod (v * x * x), h2, castMod]
            rw [hc1] at hc2
            push_cast at hc2
            have h2u : (2 : ZMod pN) * (u : ZMod pN) = 0 := by linear_combination hc2
            calc (u : ZMod pN) = ((2 : ZMod pN) * ((halfP : Int) : ZMod pN)) * (u : ZMod pN) := by
                  rw [two_unit, one_mul]
              _ = ((halfP : Int) : ZMod pN) * ((2 : ZMod pN) * (u : ZMod pN)) := by ring
              _ = 0 := by rw [h2u, mul_zero]
          · -- vx2 = u and vx2 = -u * SQRT_M1 force u (1 + SQRT_M1) = 0, a unit multiple
            have hc3 : ((v * x * x : Int) : ZMod pN) = ((-u * SQRT_M1 : Int) : ZMod pN) := by
              rw [← castMod (v * x * x), h3, castMod]
            rw [hc1] at hc3
            push_cast at hc3
            have hkey : (u : ZMod pN) * (1 + ((SQRT_M1 : Int) : ZMod pN)) = 0 := by
              linear_combination hc3
            calc (u : ZMod pN)
                = ((1 + ((SQRT_M1 : Int) : ZMod pN)) * ((invOnePlusSqrtM1 : Int) : ZMod pN)) * (u : ZMod pN) := by
                  rw [one_plus_sqrt_m1_unit, one_mul]
              _ = ((u : ZMod pN) * (1 + ((SQRT_M1 : Int) : ZMod pN))) * ((invOnePlusSqrtM1 : Int) : ZMod pN) := by ring
              _ = 0 := by rw [hkey, zero_mul]
        -- with u = 0, v x^2 = 0 as well, so the rotated root also works
        have hvx0 : ((v : Int) : ZMod pN) * (x : ZMod pN) * (x : ZMod pN) = 0 := by
          have := hc1
          push_cast at this
          rw [this, hu0']
        rw [show ((modP (x * SQRT_M1) : Int) : ZMod pN) = ((x * SQRT_M1 : Int) : ZMod pN) from castMod _]
        push_cast
        rw [hu0']
        calc ((x : ZMod pN) * (SQRT_M1 : ZMod pN)) ^ 2 * (v : ZMod pN)
            = ((SQRT_M1 : ZMod pN) * (SQRT_M1 : ZMod pN)) * ((v : ZMod pN) * (x : ZMod pN) * (x : ZMod pN)) := by ring
          _ = 0 := by rw [hvx0]; ring
      · rw [hxSel, if_neg hs]
        have := hc1
        push_cast at this ⊢
        calc (x : ZMod pN) ^ 2 * (v : ZMod pN)
            = (v : ZMod pN) * (x : ZMod pN) * (x : ZMod pN) := by ring
          _ = (u : ZMod pN) := this
    · -- vx2 = -u: root2 is selected and (x i)^2 v = -(v x^2) = u
      have hsel : modP (v * x * x) = modP (-u) ∨ modP (v * x * x) = modP (-u * SQRT_M1) :=
        Or.inl h2
      rw [hxSel, if_pos hsel]
      have hc2 : ((v * x * x : Int) : ZMod pN) = ((-u : Int) : ZMod pN) := by
        rw [← castMod (v * x * x), h2, castMod]
      rw [show ((modP (x * SQRT_M1) : Int) : ZMod pN) = ((x * SQRT_M1 : Int) : ZMod pN) from castMod _]
      push_cast at hc2 ⊢
      calc ((x : ZMod pN) * (SQRT_M1 : ZMod pN)) ^ 2 * (v : ZMod pN)
          = ((SQRT_M1 : ZMod pN) * (SQRT_M1 : ZMod pN)) * ((v : ZMod pN) * (x : ZMod pN) * (x : ZMod pN)) := by ring
        _ = ((SQRT_M1 : ZMod pN) * (SQRT_M1 : ZMod pN)) * (-(u : ZMod pN)) := by rw [hc2]
        _ = (u : ZMod pN) := by
            have := sqrt_m1_sq
            push_cast at this
            rw [this]; ring

/-- C3: for u, v in [0, p), uvRatio(u, v) returns a pair (isValid, x) with
x in [0, p) and even least-significant bit (the final negation normalizes
the parity), such that whenever isValid is true, x^2 * v is congruent to u
modulo p.  uvRatio is a total function of its inputs, so it never raises. -/
theorem c3_uvRatio_sound (u v : Int)
    (_hu0 : 0 ≤ u) (_hu : u < pP) (_hv0 : 0 ≤ v) (_hv : v < pP) :
    0 ≤ (uvRatio u v).2 ∧ (uvRatio u v).2 < pP ∧ (uvRatio u v).2.tmod 2 = 0 ∧
    ((uvRatio u v).1 = true →
      ((uvRatio u v).2 * (uvRatio u v).2 * v) % pP = u % pP) := by
  rw [uvRatio_eq_from]
  exact uvRatioFrom_spec u v _ _hu0 _hu (modP_nonneg _ pP_pos) (modP_lt _ pP_pos)

/-- Witness for C3 at the concrete input u = 1, v = 1. -/
theorem c3_uvRatio_sound_witness :
    ((0 : Int) ≤ 1 ∧ (1 : Int) < pP ∧ (0 : Int) ≤ 1 ∧ (1 : Int) < pP) ∧
    (0 ≤ (uvRatio 1 1).2 ∧ (uvRatio 1 1).2 < pP ∧ (uvRatio 1 1).2.tmod 2 = 0 ∧
      ((uvRatio 1 1).1 = true →
        ((uvRatio 1 1).2 * (uvRatio 1 1).2 * 1) % pP = 1 % pP)) :=
  ⟨by decide, c3_uvRatio_sound 1 1 (by decide) (by decide) (by decide) (by decide)⟩


/-! ## C8 amended theorem -/

theorem hexDigitsLE_length_le_iff :
    ∀ (fuel k n : Nat), n < 16^fuel → ((hexDigitsLE fuel n).length ≤ k ↔ n < 16^k)
  | 0, k, n, hn => by
    have hn0 : n = 0 := by simpa using hn
    subst hn0
    simp only [hexDigitsLE, List.length_nil, Nat.zero_le, true_iff]
    exact pow_pos (by norm_num) k
  | fuel+1, k, n, hn => by
    unfold hexDigitsLE
    by_cases h0 : n = 0
    · subst h0
      rw [if_pos rfl]
      simp only [List.length_nil, Nat.zero_le, true_iff]
      exact pow_pos (by norm_num) k
    · rw [if_neg h0]
      cases k with
      | zero =>
        simp only [List.length_cons, pow_zero]
        constructor
        · intro h; omega
        · intro h; omega
      | succ k =>
        have hdiv : n / 16 < 16^fuel := by
          rw [Nat.div_lt_iff_lt_mul (by norm_num : 0 < 16)]
          calc n < 16^(fuel+1) := hn
            _ = 16^fuel * 16 := by ring
        have ih := hexDigitsLE_length_le_iff fuel k (n / 16) hdiv
        simp only [List.length_cons]
        rw [Nat.succ_le_succ_iff, ih, Nat.div_lt_iff_lt_mul (by norm_num : 0 < 16)]
        have : 16^(k+1) = 16^k * 16 := by ring
        rw [this]

theorem hexPairsToBytes_length : ∀ ds : List Nat, (hexPairsToBytes ds).length = ds.length / 2
  | [] => rfl
  | [_] => by simp [hexPairsToBytes]
  | d1 :: d2 :: rest => by
    simp only [hexPairsToBytes, List.length_cons, hexPairsToBytes_length rest]
    omega

/-- C8 amended: normalizePrivateKey accepts an integer key exactly when it
lies in [0, 2^256) (the boundary value 2^256 itself passes the range guard
but is rejected by the 64-hex-digit length check); it accepts a byte array
exactly when it has 32 bytes and a hex string exactly when it has 64 hex
digits; and every accepted input produces a 32-byte value. -/
theorem c8_normalize_accepts (n : Int) (b : List Nat) (ds : List Nat) :
    ((normalizePrivateKey (.int n)).isSome = true ↔ 0 ≤ n ∧ n < 2^256) ∧
    ((normalizePrivateKey (.bytes b)).isSome = true ↔ b.length = 32) ∧
    ((normalizePrivateKey (.hexStr ds)).isSome = true ↔ ds.length = 64) ∧
    ((normalizePrivateKey (.int n)).getD (List.replicate 32 0)).length = 32 := by
  have hint : ∀ m : Int, (normalizePrivateKey (.int m)).isSome = true ↔ 0 ≤ m ∧ m < 2^256 := by
    intro m
    unfold normalizePrivateKey
    dsimp only
    by_cases hrange : m < 0 ∨ m > 2^256
    · rw [if_pos hrange]
      simp only [Option.isSome_none, Bool.false_eq_true, false_iff]
      intro hcon
      omega
    · rw [if_neg hrange]
      push_neg at hrange
      obtain ⟨hm0, hm1⟩ := hrange
      have hlen : (toHexString m.toNat).length ≤ 64 ↔ m < 2^256 := by
        unfold toHexString
        by_cases hz : m.toNat = 0
        · rw [if_pos hz]
          simp only [List.length_cons, List.length_nil]
          constructor
          · intro _; omega
          · intro _; omega
        · rw [if_neg hz]
          rw [List.length_reverse]
          have hbig : m.toNat < 16^300 := by
            have h1 : (16:Nat)^300 > 2^256 := by norm_num
            omega
          rw [hexDigitsLE_length_le_iff 300 64 m.toNat hbig]
          have h64 : (16:Nat)^64 = 2^256 := by norm_num
          rw [h64]
          omega
      set hs := toHexString m.toNat with hhs
      have hpadlen : (List.replicate (64 - hs.length) 0 ++ hs).length = 64 ↔ hs.length ≤ 64 := by
        rw [List.length_append, List.length_replicate]
        omega
      by_cases hok : (List.replicate (64 - hs.length) 0 ++ hs).length = 64
      · rw [if_neg (by rw [hok]; trivial)]
        simp only [Option.isSome_some, true_iff]
        have := hpadlen.mp hok
        rw [hhs] at this
        exact ⟨hm0, hlen.mp this⟩
      · rw [if_pos hok]
        simp only [Option.isSome_none, Bool.false_eq_true, false_iff]
        intro ⟨_, hcon⟩
        exact hok (hpadlen.mpr (hhs ▸ hlen.mpr hcon))
  refine ⟨hint n, ?_, ?_, ?_⟩
  · unfold normalizePrivateKey
    dsimp only
    by_cases hb : b.length = 32
    · rw [if_neg (by rw [hb]; trivial)]
      simp [hb]
    · rw [if_pos hb]
      simp [hb]
  · unfold normalizePrivateKey
    dsimp only
    by_cases hd : ds.length = 64
    · rw [if_neg (by rw [hd]; trivial)]
      simp [hd]
    · rw [if_pos hd]
      simp [hd]
  · unfold normalizePrivateKey
    dsimp only
    by_cases hrange : n < 0 ∨ n > 2^256
    · rw [if_pos hrange]
      simp
    · rw [if_neg hrange]
      by_cases hok : (List.replicate (64 - (toHexString n.toNat).length) 0 ++ toHexString n.toNat).length = 64
      · rw [if_neg (by rw [hok]; trivial)]
        simp only [Option.getD_some]
        rw [hexPairsToBytes_length, hok]
      · rw [if_pos hok]
        simp

/-! ## Primality of p via Lucas certificates -/

theorem powModN_eq : ∀ (fuel b e m : Nat), 0 < m → e < 2^fuel →
    powModN fuel b e m = b^e % m
  | 0, b, e, m, _, he => by
    have he0 : e = 0 := by simpa using he
    subst he0
    simp [powModN]
  | fuel+1, b, e, m, hm, he => by
    unfold powModN
    by_cases h0 : e = 0
    · subst h0; simp
    · rw [if_neg h0]
      have hdiv : e / 2 < 2^fuel := by
        have : e < 2^fuel * 2 := by
          calc e < 2^(fuel+1) := he
            _ = 2^fuel * 2 := by ring
        omega
      have ih := powModN_eq fuel (b * b % m) (e / 2) m hm hdiv
      have hsplit : b ^ e = (b * b) ^ (e / 2) * b ^ (e % 2) := by
        have he2 : e = 2 * (e / 2) + e % 2 := (Nat.div_add_mod e 2).symm ▸ by omega
        calc b ^ e = b ^ (2 * (e / 2) + e % 2) := by rw [← he2]
          _ = (b ^ 2) ^ (e / 2) * b ^ (e % 2) := by rw [pow_add, pow_mul]
          _ = (b * b) ^ (e / 2) * b ^ (e % 2) := by rw [sq]
      have hmm : (b * b % m) ^ (e / 2) % m = (b * b) ^ (e / 2) % m := by
        rw [Nat.pow_mod, Nat.mod_mod_of_dvd _ dvd_rfl, ← Nat.pow_mod]
      by_cases hpar : e % 2 = 1
      · rw [if_pos hpar, ih, hmm, hsplit, hpar, pow_one, Nat.mod_mul_mod]
      · rw [if_neg hpar, ih, hmm, hsplit]
        have : e % 2 = 0 := by omega
        rw [this, pow_zero, mul_one]

theorem zmod_pow_via_powModN (p a e : Nat) (hp : 0 < p) (he : e < 2^256) :
    ((a : ZMod p) ^ e = 1) ↔ powModN 256 a e p % p = 1 % p := by
  rw [powModN_eq 256 a e p hp he, Nat.mod_mod_of_dvd _ dvd_rfl]
  rw [show (1 : ZMod p) = ((1 : Nat) : ZMod p) from by norm_num]
  rw [← Nat.cast_pow, ZMod.natCast_eq_natCast_iff']

theorem pow_eq_one_of_powModN (p a e : Nat) (hp : 0 < p) (he : e < 2^256)
    (h : powModN 256 a e p % p = 1 % p) : ((a : Nat) : ZMod p) ^ e = 1 :=
  (zmod_pow_via_powModN p a e hp he).mpr h

theorem pow_ne_one_of_powModN (p a e : Nat) (hp : 0 < p) (he : e < 2^256)
    (h : ¬ (powModN 256 a e p % p = 1 % p)) : ((a : Nat) : ZMod p) ^ e ≠ 1 :=
  fun hcon => h ((zmod_pow_via_powModN p a e hp he).mp hcon)

theorem prime_2773320623 : Nat.Prime 2773320623 := by
  have h2437 : Nat.Prime 2437 := by norm_num
  have h569003 : Nat.Prime 569003 := by norm_num
  apply lucas_primality 2773320623 (((5 : Nat) : ZMod 2773320623))
  · exact pow_eq_one_of_powModN _ _ _ (by norm_num) (by norm_num) (by decide)
  · intro q hq hdvd
    rw [show (2773320623 - 1 : Nat) = 2 * (2437 * 569003) from by norm_num] at hdvd
    rcases (Nat.Prime.dvd_mul hq).mp hdvd with h | h
    · rw [(Nat.prime_dvd_prime_iff_eq hq Nat.prime_two).mp h]
      exact pow_ne_one_of_powModN _ _ _ (by norm_num) (by norm_num) (by decide)
    rcases (Nat.Prime.dvd_mul hq).mp h with h | h
    · rw [(Nat.prime_dvd_prime_iff_eq hq h2437).mp h]
      exact pow_ne_one_of_powModN _ _ _ (by norm_num) (by norm_num) (by decide)
    · rw [(Nat.prime_dvd_prime_iff_eq hq h569003).mp h]
      exact pow_ne_one_of_powModN _ _ _ (by norm_num) (by norm_num) (by decide)

theorem prime_72106336199 : Nat.Prime 72106336199 := by
  have hp13 : Nat.Prime 13 := by norm_num
  have hp2773320623 : Nat.Prime 2773320623 := prime_2773320623
  apply lucas_primality 72106336199 (((7 : Nat) : ZMod 72106336199))
  · exact pow_eq_one_of_powModN _ _ _ (by norm_num) (by decide) (by decide)
  · intro q hq hdvd
    rw [show (72106336199 - 1 : Nat) = 2 * (13 * (2773320623)) from by norm_num] at hdvd
    rcases (Nat.Prime.dvd_mul hq).mp hdvd with h | hdvd
    · rw [(Nat.prime_dvd_prime_iff_eq hq Nat.prime_two).mp h]
      exact pow_ne_one_of_powModN _ _ _ (by norm_num) (by decide) (by decide)
    rcases (Nat.Prime.dvd_mul hq).mp hdvd with h | hdvd
    · rw [(Nat.prime_dvd_prime_iff_eq hq hp13).mp h]
      exact pow_ne_one_of_powModN _ _ _ (by norm_num) (by decide) (by decide)
    rw [(Nat.prime_dvd_prime_iff_eq hq hp2773320623).mp hdvd]
    exact pow_ne_one_of_powModN _ _ _ (by norm_num) (by decide) (by decide)

theorem prime_1919519569386763 : Nat.Prime 1919519569386763 := by
  have hp7 : Nat.Prime 7 := by norm_num
  have hp19 : Nat.Prime 19 := by norm_num
  have hp47 : Nat.Prime 47 := by norm_num
  have hp127 : Nat.Prime 127 := by norm_num
  have hp8574133 : Nat.Prime 8574133 := by norm_num
  apply lucas_primality 1919519569386763 (((2 : Nat) : ZMod 1919519569386763))
  · exact pow_eq_one_of_powModN _ _ _ (by norm_num) (by decide) (by decide)
  · intro q hq hdvd
    rw [show (1919519569386763 - 1 : Nat) = 2 * (3 * (7 * (19 * (47^2 * (127 * (8574133)))))) from by norm_num] at hdvd
    rcases (Nat.Prime.dvd_mul hq).mp hdvd with h | hdvd
    · rw [(Nat.prime_dvd_prime_iff_eq hq Nat.prime_two).mp h]
      exact pow_ne_one_of_powModN _ _ _ (by norm_num) (by decide) (by decide)
    rcases (Nat.Prime.dvd_mul hq).mp hdvd with h | hdvd
    · rw [(Nat.prime_dvd_prime_iff_eq hq Nat.prime_three).mp h]
      exact pow_ne_one_of_powModN _ _ _ (by norm_num) (by decide) (by decide)
    rcases (Nat.Prime.dvd_mul hq).mp hdvd with h | hdvd
    · rw [(Nat.prime_dvd_prime_iff_eq hq hp7).mp h]
      exact pow_ne_one_of_powModN _ _ _ (by norm_num) (by decide) (by decide)
    rcases (Nat.Prime.dvd_mul hq).mp hdvd with h | hdvd
    · rw [(Nat.prime_dvd_prime_iff_eq hq hp19).mp h]
      exact pow_ne_one_of_powModN _ _ _ (by norm_num) (by decide) (by decide)
    rcases (Nat.Prime.dvd_mul hq).mp hdvd with h | hdvd
    · rw [(Nat.prime_dvd_prime_iff_eq hq hp47).mp (Nat.Prime.dvd_of_dvd_pow hq h)]
      exact pow_ne_one_of_powModN _ _ _ (by norm_num) (by decide) (by decide)
    rcases (Nat.Prime.dvd_mul hq).mp hdvd with h | hdvd
    · rw [(Nat.prime_dvd_prime_iff_eq hq hp127).mp h]
      exact pow_ne_one_of_powModN _ _ _ (by norm_num) (by decide) (by decide)
    rw [(Nat.prime_dvd_prime_iff_eq hq hp8574133).mp hdvd]
    exact pow_ne_one_of_powModN _ _ _ (by norm_num) (by decide) (by decide)

theorem prime_31757755568855353 : Nat.Prime 31757755568855353 := by
  have hp31 : Nat.Prime 31 := by norm_num
  have hp107 : Nat.Prime 107 := by norm_num
  have hp223 : Nat.Prime 223 := by norm_num
  have hp4153 : Nat.Prime 4153 := by norm_num
  have hp430751 : Nat.Prime 430751 := by norm_num
  apply lucas_primality 31757755568855353 (((10 : Nat) : ZMod 31757755568855353))
  · exact pow_eq_one_of_powModN _ _ _ (by norm_num) (by decide) (by decide)
  · intro q hq hdvd
    rw [show (31757755568855353 - 1 : Nat) = 2^3 * (3 * (31 * (107 * (223 * (4153 * (430751)))))) from by norm_num] at hdvd
    rcases (Nat.Prime.dvd_mul hq).mp hdvd with h | hdvd
    · rw [(Nat.prime_dvd_prime_iff_eq hq Nat.prime_two).mp (Nat.Prime.dvd_of_dvd_pow hq h)]
      exact pow_ne_one_of_powModN _ _ _ (by norm_num) (by decide) (by decide)
    rcases (Nat.Prime.dvd_mul hq).mp hdvd with h | hdvd
    · rw [(Nat.prime_dvd_prime_iff_eq hq Nat.prime_three).mp h]
      exact pow_ne_one_of_powModN _ _ _ (by norm_num) (by decide) (by decide)
    rcases (Nat.Prime.dvd_mul hq).mp hdvd with h | hdvd
    · rw [(Nat.prime_dvd_prime_iff_eq hq hp31).mp h]
      exact pow_ne_one_of_powModN _ _ _ (by norm_num) (by decide) (by decide)
    rcases (Nat.Prime.dvd_mul hq).mp hdvd with h | hdvd
    · rw [(Nat.prime_dvd_prime_iff_eq hq hp107).mp h]
      exact pow_ne_one_of_powModN _ _ _ (by norm_num) (by decide) (by decide)
    rcases (Nat.Prime.dvd_mul hq).mp hdvd with h | hdvd
    · rw [(Nat.prime_dvd_prime_iff_eq hq hp223).mp h]
      exact pow_ne_one_of_powModN _ _ _ (by norm_num) (by decide) (by decide)
    rcases (Nat.Prime.dvd_mul hq).mp hdvd with h | hdvd
    · rw [(Nat.prime_dvd_prime_iff_eq hq hp4153).mp h]
      exact pow_ne_one_of_powModN _ _ _ (by norm_num) (by decide) (by decide)
    rw [(Nat.prime_dvd_prime_iff_eq hq hp430751).mp hdvd]
    exact pow_ne_one_of_powModN _ _ _ (by norm_num) (by decide) (by decide)

theorem prime_75445702479781427272750846543864801 : Nat.Prime 75445702479781427272750846543864801 := by
  have hp5 : Nat.Prime 5 := by norm_num
  have hp75707 : Nat.Prime 75707 := by norm_num
  have hp72106336199 : Nat.Prime 72106336199 := prime_72106336199
  have hp1919519569386763 : Nat.Prime 1919519569386763 := prime_1919519569386763
  apply lucas_primality 75445702479781427272750846543864801 (((7 : Nat) : ZMod 75445702479781427272750846543864801))
  · exact pow_eq_one_of_powModN _ _ _ (by norm_num) (by decide) (by decide)
  · intro q hq hdvd
    rw [show (75445702479781427272750846543864801 - 1 : Nat) = 2^5 * (3^2 * (5^2 * (75707 * (72106336199 * (1919519569386763))))) from by norm_num] at hdvd
    rcases (Nat.Prime.dvd_mul hq).mp hdvd with h | hdvd
    · rw [(Nat.prime_dvd_prime_iff_eq hq Nat.prime_two).mp (Nat.Prime.dvd_of_dvd_pow hq h)]
      exact pow_ne_one_of_powModN _ _ _ (by norm_num) (by decide) (by decide)
    rcases (Nat.Prime.dvd_mul hq).mp hdvd with h | hdvd
    · rw [(Nat.prime_dvd_prime_iff_eq hq Nat.prime_three).mp (Nat.Prime.dvd_of_dvd_pow hq h)]
      exact pow_ne_one_of_powModN _ _ _ (by norm_num) (by decide) (by decide)
    rcases (Nat.Prime.dvd_mul hq).mp hdvd with h | hdvd
    · rw [(Nat.prime_dvd_prime_iff_eq hq hp5).mp (Nat.Prime.dvd_of_dvd_pow hq h)]
      exact pow_ne_one_of_powModN _ _ _ (by norm_num) (by decide) (by decide)
    rcases (Nat.Prime.dvd_mul hq).mp hdvd with h | hdvd
    · rw [(Nat.prime_dvd_prime_iff_eq hq hp75707).mp h]
      exact pow_ne_one_of_powModN _ _ _ (by norm_num) (by decide) (by decide)
    rcases (Nat.Prime.dvd_mul hq).mp hdvd with h | hdvd
    · rw [(Nat.prime_dvd_prime_iff_eq hq hp72106336199).mp h]
      exact pow_ne_one_of_powModN _ _ _ (by norm_num) (by decide) (by decide)
    rw [(Nat.prime_dvd_prime_iff_eq hq hp1919519569386763).mp hdvd]
    exact pow_ne_one_of_powModN _ _ _ (by norm_num) (by decide) (by decide)

theorem prime_74058212732561358302231226437062788676166966415465897661863160754340907 : Nat.Prime 74058212732561358302231226437062788676166966415465897661863160754340907 := by
  have hp353 : Nat.Prime 353 := by norm_num
  have hp57467 : Nat.Prime 57467 := by norm_num
  have hp132049 : Nat.Prime 132049 := by norm_num
  have hp1923133 : Nat.Prime 1923133 := by norm_num
  have hp31757755568855353 : Nat.Prime 31757755568855353 := prime_31757755568855353
  have hp75445702479781427272750846543864801 : Nat.Prime 75445702479781427272750846543864801 := prime_75445702479781427272750846543864801
  apply lucas_primality 74058212732561358302231226437062788676166966415465897661863160754340907 (((2 : Nat) : ZMod 74058212732561358302231226437062788676166966415465897661863160754340907))
  · exact pow_eq_one_of_powModN _ _ _ (by norm_num) (by decide) (by decide)
  · intro q hq hdvd
    rw [show (74058212732561358302231226437062788676166966415465897661863160754340907 - 1 : Nat) = 2 * (3 * (353 * (57467 * (132049 * (1923133 * (31757755568855353 * (75445702479781427272750846543864801))))))) from by norm_num] at hdvd
    rcases (Nat.Prime.dvd_mul hq).mp hdvd with h | hdvd
    · rw [(Nat.prime_dvd_prime_iff_eq hq Nat.prime_two).mp h]
      exact pow_ne_one_of_powModN _ _ _ (by norm_num) (by decide) (by decide)
    rcases (Nat.Prime.dvd_mul hq).mp hdvd with h | hdvd
    · rw [(Nat.prime_dvd_prime_iff_eq hq Nat.prime_three).mp h]
      exact pow_ne_one_of_powModN _ _ _ (by norm_num) (by decide) (by decide)
    rcases (Nat.Prime.dvd_mul hq).mp hdvd with h | hdvd
    · rw [(Nat.prime_dvd_prime_iff_eq hq hp353).mp h]
      exact pow_ne_one_of_powModN _ _ _ (by norm_num) (by decide) (by decide)
    rcases (Nat.Prime.dvd_mul hq).mp hdvd with h | hdvd
    · rw [(Nat.prime_dvd_prime_iff_eq hq hp57467).mp h]
      exact pow_ne_one_of_powModN _ _ _ (by norm_num) (by decide) (by decide)
    rcases (Nat.Prime.dvd_mul hq).mp hdvd with h | hdvd
    · rw [(Nat.prime_dvd_prime_iff_eq hq hp132049).mp h]
      exact pow_ne_one_of_powModN _ _ _ (by norm_num) (by decide) (by decide)
    rcases (Nat.Prime.dvd_mul hq).mp hdvd with h | hdvd
    · rw [(Nat.prime_dvd_prime_iff_eq hq hp1923133).mp h]
      exact pow_ne_one_of_powModN _ _ _ (by norm_num) (by decide) (by decide)
    rcases (Nat.Prime.dvd_mul hq).mp hdvd with h | hdvd
    · rw [(Nat.prime_dvd_prime_iff_eq hq hp31757755568855353).mp h]
      exact pow_ne_one_of_powModN _ _ _ (by norm_num) (by decide) (by decide)
    rw [(Nat.prime_dvd_prime_iff_eq hq hp75445702479781427272750846543864801).mp hdvd]
    exact pow_ne_one_of_powModN _ _ _ (by norm_num) (by decide) (by decide)

/-- The field prime p = 2^255 - 19 is prime, by the chain of Lucas
certificates above. -/
theorem pN_prime : Nat.Prime pN := by
  have hp65147 : Nat.Prime 65147 := by norm_num
  have hpQ : Nat.Prime 74058212732561358302231226437062788676166966415465897661863160754340907 := prime_74058212732561358302231226437062788676166966415465897661863160754340907
  have hpn : pN = 57896044618658097711785492504343953926634992332820282019728792003956564819949 := by norm_num [pN]
  rw [hpn]
  apply lucas_primality 57896044618658097711785492504343953926634992332820282019728792003956564819949 (((2 : Nat) : ZMod 57896044618658097711785492504343953926634992332820282019728792003956564819949))
  · exact pow_eq_one_of_powModN _ _ _ (by norm_num) (by decide) (by decide)
  · intro q hq hdvd
    rw [show (57896044618658097711785492504343953926634992332820282019728792003956564819949 - 1 : Nat) = 2^2 * (3 * (65147 * 74058212732561358302231226437062788676166966415465897661863160754340907)) from by norm_num] at hdvd
    rcases (Nat.Prime.dvd_mul hq).mp hdvd with h | hdvd
    · rw [(Nat.prime_dvd_prime_iff_eq hq Nat.prime_two).mp (Nat.Prime.dvd_of_dvd_pow hq h)]
      exact pow_ne_one_of_powModN _ _ _ (by norm_num) (by decide) (by decide)
    rcases (Nat.Prime.dvd_mul hq).mp hdvd with h | hdvd
    · rw [(Nat.prime_dvd_prime_iff_eq hq Nat.prime_three).mp h]
      exact pow_ne_one_of_powModN _ _ _ (by norm_num) (by decide) (by decide)
    rcases (Nat.Prime.dvd_mul hq).mp hdvd with h | hdvd
    · rw [(Nat.prime_dvd_prime_iff_eq hq hp65147).mp h]
      exact pow_ne_one_of_powModN _ _ _ (by norm_num) (by decide) (by decide)
    rw [(Nat.prime_dvd_prime_iff_eq hq hpQ).mp hdvd]
    exact pow_ne_one_of_powModN _ _ _ (by norm_num) (by decide) (by decide)

instance fact_pN_prime : Fact (Nat.Prime pN) := ⟨pN_prime⟩

/-! ## C2 amended theorem -/

theorem cast_ne_zero_of_range {z : Int} (h0 : 0 < z) (h1 : z < pP) : (z : ZMod pN) ≠ 0 := by
  rw [Ne, ZMod.intCast_zmod_eq_zero_iff_dvd]
  intro hdvd
  have hle := Int.le_of_dvd h0 hdvd
  rw [pP_eq_natCast] at h1
  omega

/-- C2 amended: under the representation invariant, the coordinate
cross-conditions X1*Z2 = X2*Z1 and Y1*Z2 = Y2*Z1 (mod p) imply that
ExtendedPoint.equals accepts the two points; the converse direction of the
claim is refuted by the counterexample theorem. -/
theorem c2_cross_implies_equals (p q : ExtPt)
    (hp : repInvariant p) (hq : repInvariant q)
    (hx : modP (p.x * q.z) = modP (q.x * p.z))
    (hy : modP (p.y * q.z) = modP (q.y * p.z)) :
    extEquals p q = true := by
  obtain ⟨hpz0, hpt, hpx0, hpx1, hpy0, hpy1, hpz0', hpz1, hpt0, hpt1⟩ := hp
  obtain ⟨hqz0, hqt, hqx0, hqx1, hqy0, hqy1, hqz0', hqz1, hqt0, hqt1⟩ := hq
  unfold extEquals
  apply decide_eq_true
  rw [modP_eq_iff]
  have hTp := (modP_eq_iff (p.t * p.z) (p.x * p.y)).mp hpt
  have hTq := (modP_eq_iff (q.t * q.z) (q.x * q.y)).mp hqt
  have hxc := (modP_eq_iff (p.x * q.z) (q.x * p.z)).mp hx
  have hyc := (modP_eq_iff (p.y * q.z) (q.y * p.z)).mp hy
  push_cast at hTp hTq hxc hyc ⊢
  have hpz : ((p.z : Int) : ZMod pN) ≠ 0 := cast_ne_zero_of_range (by omega) hpz1
  have hqz : ((q.z : Int) : ZMod pN) ≠ 0 := cast_ne_zero_of_range (by omega) hqz1
  apply mul_right_cancel₀ (mul_ne_zero hpz hqz)
  calc ((p.t : Int) : ZMod pN) * (q.z : ZMod pN) * ((p.z : ZMod pN) * (q.z : ZMod pN))
      = ((p.t : ZMod pN) * (p.z : ZMod pN)) * ((q.z : ZMod pN) * (q.z : ZMod pN)) := by ring
    _ = ((p.x : ZMod pN) * (p.y : ZMod pN)) * ((q.z : ZMod pN) * (q.z : ZMod pN)) := by
        rw [hTp]
    _ = ((p.x : ZMod pN) * (q.z : ZMod pN)) * ((p.y : ZMod pN) * (q.z : ZMod pN)) := by ring
    _ = ((q.x : ZMod pN) * (p.z : ZMod pN)) * ((q.y : ZMod pN) * (p.z : ZMod pN)) := by
        rw [hxc, hyc]
    _ = ((q.x : ZMod pN) * (q.y : ZMod pN)) * ((p.z : ZMod pN) * (p.z : ZMod pN)) := by ring
    _ = ((q.t : ZMod pN) * (q.z : ZMod pN)) * ((p.z : ZMod pN) * (p.z : ZMod pN)) := by
        rw [hTq]
    _ = (q.t : ZMod pN) * (p.z : ZMod pN) * ((p.z : ZMod pN) * (q.z : ZMod pN)) := by ring

/-- Witness for the C2 amended theorem at (1, 1, 1, 1) against itself. -/
theorem c2_cross_implies_equals_witness :
    (repInvariant ⟨1, 1, 1, 1⟩ ∧
      modP ((1 : Int) * 1) = modP ((1 : Int) * 1)) ∧
    extEquals ⟨1, 1, 1, 1⟩ ⟨1, 1, 1, 1⟩ = true :=
  ⟨⟨by decide, rfl⟩,
   c2_cross_implies_equals ⟨1, 1, 1, 1⟩ ⟨1, 1, 1, 1⟩ (by decide) (by decide) rfl rfl⟩
